import Mathlib

/-!
Verification of the document-extraction pipeline of `document_parser.py`.

The Python module is shallowly embedded: pure text processing
(`clean_extracted_text`, `os.path.splitext`) becomes Lean functions on
`String` / `List Char`; calls into external libraries (PyMuPDF, pytesseract,
python-docx, textract, file IO) are modelled by an `Env` record whose fields
return `Except String _` values — `Except.error` stands for the library call
raising an exception, `Except.ok` for it returning normally.  Exception-driven
control flow (try/except) becomes explicit `match` on those `Except` values.
Python dictionaries returned by the extractors become a `Record` structure
with one `Option` field per possible key.
-/

/-- Python `str.isspace` / the default character class stripped by
`str.strip()`: the Unicode whitespace characters recognised by CPython. -/
def pyIsSpace (c : Char) : Bool :=
  let n := c.toNat
  if 0x9 ≤ n ∧ n ≤ 0xD then true
  else if n = 0x20 then true
  else if 0x1C ≤ n ∧ n ≤ 0x1F then true
  else if n = 0x85 ∨ n = 0xA0 ∨ n = 0x1680 then true
  else if 0x2000 ≤ n ∧ n ≤ 0x200A then true
  else if n = 0x2028 ∨ n = 0x2029 ∨ n = 0x202F ∨ n = 0x205F ∨ n = 0x3000 then true
  else false

/-- Python `str.isprintable`: false exactly on the separator and "other"
Unicode categories (Cc, Cf, Zl, Zp, Zs) except the plain space.  Modelled from
CPython's documented rule, exact on ASCII and on the non-printable ranges that
occur in extracted document text. -/
def pyIsPrintable (c : Char) : Bool :=
  let n := c.toNat
  if n < 0x20 then false
  else if 0x7F ≤ n ∧ n ≤ 0xA0 then false
  else if n = 0xAD ∨ n = 0x1680 then false
  else if 0x2000 ≤ n ∧ n ≤ 0x200F then false
  else if 0x2028 ≤ n ∧ n ≤ 0x202F then false
  else if n = 0x205F ∨ (0x2060 ≤ n ∧ n ≤ 0x2064) then false
  else if n = 0x3000 ∨ n = 0xFEFF then false
  else if 0xFFF9 ≤ n ∧ n ≤ 0xFFFB then false
  else true

/-- The character filter of `clean_extracted_text`:
`c.isprintable() or c in '\n\t '`. -/
def keepChar (c : Char) : Bool :=
  pyIsPrintable c || c = '\n' || c = '\t' || c = ' '

/-- Trailing-whitespace removal (the right half of Python `str.strip()`). -/
def rstripChars : List Char → List Char
  | [] => []
  | c :: rest =>
    let r := rstripChars rest
    if r.isEmpty then (if pyIsSpace c then [] else [c]) else c :: r

/-- Python `str.strip()` with no argument: drop leading and trailing
whitespace. -/
def stripChars (l : List Char) : List Char :=
  rstripChars (l.dropWhile pyIsSpace)

/-- Python `str.strip()` at the `String` level. -/
def pyStrip (s : String) : String :=
  ⟨stripChars s.data⟩

/-- Python truthiness test `not text.strip()`: true iff the string strips to
empty. -/
def isBlank (s : String) : Bool :=
  (stripChars s.data).isEmpty

/-- Python `text.split('\n')` on the underlying character list. -/
def splitOnNl : List Char → List (List Char)
  | [] => [[]]
  | c :: rest =>
    if c = '\n' then [] :: splitOnNl rest
    else
      match splitOnNl rest with
      | [] => [[c]]
      | line :: more => (c :: line) :: more

/-- Python `'\n'.join(lines)` on character lists. -/
def joinNl : List (List Char) → List Char
  | [] => []
  | [l] => l
  | l :: next :: rest => l ++ '\n' :: joinNl (next :: rest)

/-- The blank-line-collapsing loop of `clean_extracted_text`, with the
`prev_blank` flag made explicit. -/
def collapseAux (prevBlank : Bool) : List (List Char) → List (List Char)
  | [] => []
  | line :: rest =>
    if line.isEmpty then
      if prevBlank then collapseAux true rest
      else [] :: collapseAux true rest
    else line :: collapseAux false rest

/-- Body of `clean_extracted_text` on a character list: filter printable
characters, split into lines, strip each line, collapse runs of blank lines,
join, and strip the whole result. -/
def cleanChars (l : List Char) : List Char :=
  stripChars
    (joinNl (collapseAux false ((splitOnNl (l.filter keepChar)).map stripChars)))

/-- `clean_extracted_text` from `document_parser.py`, including the
`if not text: return ""` guard. -/
def clean_extracted_text (text : String) : String :=
  if text = "" then "" else ⟨cleanChars text.data⟩

/-- CPython `str.rfind` for a single character: highest index of `c` in `l`,
`-1` when absent. -/
def strRfind (l : List Char) (c : Char) : Int :=
  match l.reverse.findIdx? (fun a => a == c) with
  | some i => (l.length : Int) - 1 - (i : Int)
  | none => -1

/-- `os.path.splitext` on a character list (POSIX flavour): split at the last
dot that lies after the last path separator, unless every character between
the separator and that dot is itself a dot (so leading dots of the basename
never start an extension). -/
def splitextList (p : List Char) : List Char × List Char :=
  let sepIndex := strRfind p '/'
  let dotIndex := strRfind p '.'
  if sepIndex < dotIndex then
    let base := (p.drop (sepIndex + 1).toNat).take (dotIndex - sepIndex - 1).toNat
    if base.any (fun c => !(c == '.')) then
      (p.take dotIndex.toNat, p.drop dotIndex.toNat)
    else (p, [])
  else (p, [])

/-- `os.path.splitext` at the `String` level: returns `(root, extension)`,
with the extension including its leading dot. -/
def splitext (p : String) : String × String :=
  (⟨(splitextList p.data).1⟩, ⟨(splitextList p.data).2⟩)

/-- ASCII case mapping of Python `str.lower` (file extensions are ASCII;
non-ASCII characters are left unchanged). -/
def pyLowerChar (c : Char) : Char :=
  if 'A' ≤ c ∧ c ≤ 'Z' then Char.ofNat (c.toNat + 32) else c

/-- Python `str.lower` on a whole string. -/
def pyLower (s : String) : String :=
  ⟨s.data.map pyLowerChar⟩

/-- The dictionary returned by the extraction functions, one `Option` field
per key that can occur.  `none` models the key being absent. -/
structure Record where
  text : Option String := none
  length : Option Nat := none
  method : Option String := none
  pages_processed : Option Nat := none
  ocr_pages : Option Nat := none
  paragraphs : Option Nat := none
  error : Option String := none
deriving DecidableEq

/-- One PDF page as seen through PyMuPDF: the text of its embedded text layer
(`page.get_text()`), and the outcome of the rasterise + OCR chain
(`get_pixmap`/`tobytes`/`Image.open`/`image_to_string`), which can raise. -/
structure PdfPage where
  nativeText : String
  ocr : Except String String

/-- The external world of `document_parser.py`: each field models one
library-call site, `Except.error` standing for the call raising an
exception. -/
structure Env where
  fitzOpen : String → Except String (List PdfPage)
  readTextFile : String → Except String String
  docxParagraphs : String → Except String (List String)
  textractProcess : String → Except String String

def nlStr : String := "\n"
def pdfExt : String := ".pdf"
def docExt : String := ".doc"
def docxExt : String := ".docx"
def txtExt : String := ".txt"
def methodDirectRead : String := "direct text read"
def methodPdf : String := "PyMuPDF + OCR"
def methodDocx : String := "python-docx"
def methodTextract : String := "textract"

def unsupportedMsg (ext : String) : String :=
  "Unsupported file type: " ++ ext ++ ". Only PDF, DOC, DOCX, TXT supported."

def extractFailMsg (e : String) : String :=
  "Failed to extract text: " ++ e

def pdfFailMsg (e : String) : String :=
  "PDF extraction failed: " ++ e

def textractFailMsg (e : String) : String :=
  "Textract extraction failed: " ++ e

/-- The method label the specification document uses for structured DOCX
extraction; kept verbatim from the spec's words so it can be compared with
the label the source actually emits. -/
def specStructuredDocxLabel : String := "structured-docx"

/-- One iteration of the page loop in `extract_text_from_pdf`.  State is
`(full_text, pages_processed, ocr_pages)`.  A page with non-blank native text
contributes that text; otherwise OCR is consulted, a raising or blank OCR
being recorded only as a diagnostic.  `pages_processed` grows on every
page. -/
def pdfProcessPage (st : String × Nat × Nat) (page : PdfPage) : String × Nat × Nat :=
  if !(isBlank page.nativeText) then
    (st.1 ++ page.nativeText ++ nlStr, st.2.1 + 1, st.2.2)
  else
    match page.ocr with
    | Except.ok ocrText =>
      if !(isBlank ocrText) then (st.1 ++ ocrText ++ nlStr, st.2.1 + 1, st.2.2 + 1)
      else (st.1, st.2.1 + 1, st.2.2)
    | Except.error _ => (st.1, st.2.1 + 1, st.2.2)

/-- `extract_text_from_pdf`: open the document (a raising open is the one
document-level failure), fold the page loop, normalize the aggregate, and
build the success record. -/
def extract_text_from_pdf (env : Env) (file_path : String) : Record :=
  match env.fitzOpen file_path with
  | Except.error e => { error := some (pdfFailMsg e) }
  | Except.ok pages =>
    let st := pages.foldl pdfProcessPage ("", 0, 0)
    let cleanText := clean_extracted_text st.1
    { text := some cleanText
      pages_processed := some st.2.1
      ocr_pages := some st.2.2
      length := some cleanText.length
      method := some methodPdf }

/-- The textract branch of `extract_text_from_doc`: last-resort generic
extraction whose failure is the terminal error of the DOC/DOCX path. -/
def textractFallback (env : Env) (file_path : String) : Record :=
  match env.textractProcess file_path with
  | Except.ok rawText =>
    let cleanText := clean_extracted_text rawText
    { text := some cleanText, length := some cleanText.length
      method := some methodTextract }
  | Except.error e => { error := some (textractFailMsg e) }

/-- `extract_text_from_doc`: for `.docx`, try python-docx paragraph
extraction first (keeping only paragraphs with non-whitespace content);
if it raises or yields blank text — and always for `.doc` — fall back to
textract. -/
def extract_text_from_doc (env : Env) (file_path : String) : Record :=
  let ext := pyLower (splitext file_path).2
  if ext = docxExt then
    match env.docxParagraphs file_path with
    | Except.ok paras =>
      let paragraphs := paras.filter (fun p => !(isBlank p))
      let text := String.intercalate nlStr paragraphs
      if !(isBlank text) then
        let cleanText := clean_extracted_text text
        { text := some cleanText
          paragraphs := some paragraphs.length
          length := some cleanText.length
          method := some methodDocx }
      else textractFallback env file_path
    | Except.error _ => textractFallback env file_path
  else textractFallback env file_path

/-- Body of `extract_text` inside its try block: extension dispatch.  Only
the inline `.txt` read can raise out of the body (the PDF and DOC paths catch
their own failures); the unsupported-extension branch returns an error record
without touching the environment. -/
def extract_text_body (env : Env) (file_path : String) : Except String Record :=
  let ext := pyLower (splitext file_path).2
  if ext = pdfExt then Except.ok (extract_text_from_pdf env file_path)
  else if ext = docExt ∨ ext = docxExt then Except.ok (extract_text_from_doc env file_path)
  else if ext = txtExt then
    match env.readTextFile file_path with
    | Except.error e => Except.error e
    | Except.ok text =>
      let cleanText := clean_extracted_text text
      Except.ok { text := some cleanText, length := some cleanText.length
                  method := some methodDirectRead }
  else Except.ok { error := some (unsupportedMsg ext) }

/-- `extract_text`: the body wrapped in its catch-all `except`, which turns
any escaped exception into an error record. -/
def extract_text (env : Env) (file_path : String) : Record :=
  match extract_text_body env file_path with
  | Except.ok r => r
  | Except.error e => { error := some (extractFailMsg e) }

/-- `extract_text` in exception semantics: the value of the try/except as an
`Except` computation, before agreeing that the handler returns normally. -/
def extract_text_exc (env : Env) (file_path : String) : Except String Record :=
  match extract_text_body env file_path with
  | Except.ok r => Except.ok r
  | Except.error e => Except.ok { error := some (extractFailMsg e) }

/-- A page on which the OCR arm both ran (blank native text) and contributed
(OCR returned, with non-blank output) — exactly the pages on which the source
increments `ocr_pages`. -/
def ocrContributed (page : PdfPage) : Bool :=
  isBlank page.nativeText &&
    match page.ocr with
    | Except.ok t => !(isBlank t)
    | Except.error _ => false

/-- Lines of a string, as character lists. -/
def linesOf (s : String) : List (List Char) :=
  splitOnNl s.data

/-- No two adjacent lines are both empty. -/
def noTwoAdjacentBlankLines (L : List (List Char)) : Prop :=
  List.Chain' (fun a b => a ≠ [] ∨ b ≠ []) L

/-- Reverse a list of lines, reversing each line: the image of a joined text
under `List.reverse`. -/
def revLines (L : List (List Char)) : List (List Char) :=
  (L.map List.reverse).reverse

/-- Drop a single leading blank line. -/
def dropLeadBlank : List (List Char) → List (List Char)
  | [] :: rest => rest
  | L => L

/-- Drop a single leading and a single trailing blank line: the effect of the
final `strip()` of `clean_extracted_text` on the line structure. -/
def trimmedLines (L : List (List Char)) : List (List Char) :=
  revLines (dropLeadBlank (revLines (dropLeadBlank L)))

/-- The line list built by `clean_extracted_text` before the final join and
strip: filtered characters, split into lines, each stripped, blank runs
collapsed. -/
def cleanLines (l : List Char) : List (List Char) :=
  collapseAux false ((splitOnNl (l.filter keepChar)).map stripChars)

/- Concrete sample data used to instantiate the universally quantified
theorems below on explicit inputs. -/

def demoPdfPath : String := "scan.pdf"
def demoTxtPath : String := "notes.txt"
def demoDocxPath : String := "essay.docx"
def demoXyzPath : String := "file.xyz"
def demoXyzExt : String := ".xyz"
def demoNative : String := "hi there"
def demoBlank : String := "   "
def demoScanText : String := "scanned text"
def demoRaw : String := "A\n\n\nB\n"
def demoClean : String := "A\n\nB"
def demoParaA : String := "First paragraph"
def demoParaB : String := "Second paragraph"
def demoParaC : String := "Third paragraph"
def demoParas : List String := [demoParaA, demoParaB, demoParaC, demoBlank]
def errBoom : String := "boom"

/-- A page whose text layer is non-blank (OCR is never consulted on it). -/
def pageNative : PdfPage := { nativeText := demoNative, ocr := Except.error errBoom }

/-- An image-only page whose OCR succeeds with non-blank text. -/
def pageScan : PdfPage := { nativeText := demoBlank, ocr := Except.ok demoScanText }

/-- An image-only page whose OCR raises. -/
def pageDead : PdfPage := { nativeText := demoBlank, ocr := Except.error errBoom }

/-- Environment in which every library call raises. -/
def envDemoBase : Env :=
  { fitzOpen := fun _ => Except.error errBoom
    readTextFile := fun _ => Except.error errBoom
    docxParagraphs := fun _ => Except.error errBoom
    textractProcess := fun _ => Except.error errBoom }

/-- A one-page PDF whose single page has native text. -/
def envAllNative : Env := { envDemoBase with fitzOpen := fun _ => Except.ok [pageNative] }

/-- A one-page PDF whose single page is image-only and OCRs successfully. -/
def envScanned : Env := { envDemoBase with fitzOpen := fun _ => Except.ok [pageScan] }

/-- A two-page PDF: one native page followed by a page whose OCR raises. -/
def envOcrFail : Env :=
  { envDemoBase with fitzOpen := fun _ => Except.ok [pageNative, pageDead] }

/-- A readable text file containing `demoRaw`. -/
def envTxt : Env := { envDemoBase with readTextFile := fun _ => Except.ok demoRaw }

/-- A DOCX whose paragraph list is `demoParas` (three non-blank paragraphs
and one whitespace-only paragraph). -/
def envDocx : Env := { envDemoBase with docxParagraphs := fun _ => Except.ok demoParas }

def demoHello : String := "Hello\n\n\n\nWorld"
def demoHelloClean : String := "Hello\n\nWorld"

theorem dropWhile_cons_eq (p : Char → Bool) (a : Char) (l : List Char) :
    (a :: l).dropWhile p = if p a then l.dropWhile p else a :: l := by
  cases h : p a <;> simp [List.dropWhile, h]

theorem dropWhile_head_false {p : Char → Bool} :
    ∀ {l : List Char} {a : Char} {t : List Char},
      l.dropWhile p = a :: t → p a = false := by
  intro l
  induction l with
  | nil => intro a t h; cases h
  | cons c rest ih =>
    intro a t h
    rw [dropWhile_cons_eq] at h
    by_cases hc : p c
    · rw [if_pos hc] at h; exact ih h
    · rw [if_neg hc] at h
      cases h
      exact Bool.of_not_eq_true hc

theorem dropWhile_mem {p : Char → Bool} {c : Char} :
    ∀ {l : List Char}, c ∈ l.dropWhile p → c ∈ l := by
  intro l
  induction l with
  | nil => intro h; exact h
  | cons a rest ih =>
    intro h
    rw [dropWhile_cons_eq] at h
    by_cases ha : p a
    · rw [if_pos ha] at h; exact List.mem_cons_of_mem a (ih h)
    · rw [if_neg ha] at h; exact h

theorem dropWhile_eq_self_of_head {p : Char → Bool} {l : List Char}
    (h : ∀ a, l.head? = some a → p a = false) : l.dropWhile p = l := by
  cases l with
  | nil => rfl
  | cons a rest =>
    rw [dropWhile_cons_eq, if_neg]
    intro hp
    have := h a rfl
    rw [hp] at this
    cases this

theorem rstrip_cons (c : Char) (rest : List Char) :
    rstripChars (c :: rest) =
      if (rstripChars rest).isEmpty then (if pyIsSpace c then [] else [c])
      else c :: rstripChars rest := rfl

theorem rstrip_head :
    ∀ {l : List Char} {a : Char} {t : List Char},
      rstripChars l = a :: t → ∃ t', l = a :: t' := by
  intro l
  induction l with
  | nil => intro a t h; cases h
  | cons c rest _ =>
    intro a t h
    rw [rstrip_cons] at h
    by_cases he : (rstripChars rest).isEmpty
    · rw [if_pos he] at h
      by_cases hs : pyIsSpace c
      · rw [if_pos hs] at h; cases h
      · rw [if_neg hs] at h; cases h; exact ⟨rest, rfl⟩
    · rw [if_neg he] at h; cases h; exact ⟨rest, rfl⟩

theorem rstrip_getLast_false :
    ∀ {l : List Char} {c : Char},
      (rstripChars l).getLast? = some c → pyIsSpace c = false := by
  intro l
  induction l with
  | nil => intro c h; cases h
  | cons a rest ih =>
    intro c h
    rw [rstrip_cons] at h
    by_cases he : (rstripChars rest).isEmpty
    · rw [if_pos he] at h
      by_cases hs : pyIsSpace a
      · rw [if_pos hs] at h; cases h
      · rw [if_neg hs] at h
        cases h
        exact Bool.of_not_eq_true hs
    · rw [if_neg he] at h
      cases hr : rstripChars rest with
      | nil => rw [hr] at he; simp at he
      | cons b t =>
        rw [hr] at h
        rw [List.getLast?_cons_cons] at h
        rw [hr] at ih
        exact ih h

theorem rstrip_mem {c : Char} :
    ∀ {l : List Char}, c ∈ rstripChars l → c ∈ l := by
  intro l
  induction l with
  | nil => intro h; exact h
  | cons a rest ih =>
    intro h
    rw [rstrip_cons] at h
    by_cases he : (rstripChars rest).isEmpty
    · rw [if_pos he] at h
      by_cases hs : pyIsSpace a
      · rw [if_pos hs] at h; cases h
      · rw [if_neg hs] at h
        rcases List.mem_singleton.mp h with rfl
        exact List.mem_cons_self _ _
    · rw [if_neg he] at h
      rcases List.mem_cons.mp h with rfl | hm
      · exact List.mem_cons_self _ _
      · exact List.mem_cons_of_mem a (ih hm)

theorem rstrip_eq_self :
    ∀ {l : List Char},
      (∀ c, l.getLast? = some c → pyIsSpace c = false) → rstripChars l = l := by
  intro l
  induction l with
  | nil => intro _; rfl
  | cons a rest ih =>
    intro h
    cases rest with
    | nil =>
      have ha := h a rfl
      rw [rstrip_cons]
      simp [rstripChars, ha]
    | cons b t =>
      have hr : rstripChars (b :: t) = b :: t := by
        apply ih
        intro c hc
        apply h
        rw [List.getLast?_cons_cons]
        exact hc
      rw [rstrip_cons, hr]
      simp

theorem stripChars_nil : stripChars [] = [] := rfl

theorem strip_head_false {l : List Char} {a : Char} {t : List Char}
    (h : stripChars l = a :: t) : pyIsSpace a = false := by
  unfold stripChars at h
  rcases rstrip_head h with ⟨t', ht⟩
  exact dropWhile_head_false ht

theorem strip_last_false {l : List Char} {c : Char}
    (h : (stripChars l).getLast? = some c) : pyIsSpace c = false :=
  rstrip_getLast_false h

theorem strip_mem {c : Char} {l : List Char} (h : c ∈ stripChars l) : c ∈ l :=
  dropWhile_mem (rstrip_mem h)

theorem strip_eq_self {l : List Char}
    (h1 : ∀ a, l.head? = some a → pyIsSpace a = false)
    (h2 : ∀ c, l.getLast? = some c → pyIsSpace c = false) :
    stripChars l = l := by
  unfold stripChars
  rw [dropWhile_eq_self_of_head h1]
  exact rstrip_eq_self h2

theorem stripped_head_false {l : List Char} (h : stripChars l = l) :
    ∀ a, l.head? = some a → pyIsSpace a = false := by
  intro a ha
  cases l with
  | nil => cases ha
  | cons b t =>
    injection ha with hba
    subst hba
    exact strip_head_false h

theorem stripped_last_false {l : List Char} (h : stripChars l = l) :
    ∀ c, l.getLast? = some c → pyIsSpace c = false := by
  intro c hc
  apply strip_last_false
  rw [h]
  exact hc

theorem strip_idem (l : List Char) : stripChars (stripChars l) = stripChars l := by
  apply strip_eq_self
  · intro a ha
    cases hl : stripChars l with
    | nil => rw [hl] at ha; cases ha
    | cons b t =>
      rw [hl] at ha
      injection ha with hba
      subst hba
      exact strip_head_false hl
  · intro c hc
    exact strip_last_false hc

theorem stripped_reverse {l : List Char} (h : stripChars l = l) :
    stripChars l.reverse = l.reverse := by
  apply strip_eq_self
  · intro a ha
    rw [List.head?_reverse] at ha
    exact stripped_last_false h a ha
  · intro c hc
    rw [List.getLast?_reverse] at hc
    exact stripped_head_false h c hc

theorem splitOnNl_cons (c : Char) (rest : List Char) :
    splitOnNl (c :: rest) =
      if c = '\n' then [] :: splitOnNl rest
      else
        match splitOnNl rest with
        | [] => [[c]]
        | line :: more => (c :: line) :: more := rfl

theorem splitOnNl_ne_nil (l : List Char) : splitOnNl l ≠ [] := by
  cases l with
  | nil => simp [splitOnNl]
  | cons c rest =>
    rw [splitOnNl_cons]
    by_cases h : c = '\n'
    · rw [if_pos h]; simp
    · rw [if_neg h]
      cases splitOnNl rest with
      | nil => simp
      | cons line more => simp

theorem splitOnNl_exists (l : List Char) :
    ∃ fl more, splitOnNl l = fl :: more := by
  cases hq : splitOnNl l with
  | nil => exact absurd hq (splitOnNl_ne_nil l)
  | cons fl more => exact ⟨fl, more, rfl⟩

theorem splitOnNl_cons_ne (c : Char) (rest : List Char) (h : ¬ c = '\n')
    {fl : List Char} {more : List (List Char)} (hs : splitOnNl rest = fl :: more) :
    splitOnNl (c :: rest) = (c :: fl) :: more := by
  rw [splitOnNl_cons, if_neg h, hs]

theorem splitOnNl_no_nl :
    ∀ {l : List Char} {line : List Char}, line ∈ splitOnNl l → '\n' ∉ line := by
  intro l
  induction l with
  | nil =>
    intro line h hc
    simp [splitOnNl] at h
    subst h
    cases hc
  | cons c rest ih =>
    intro line h hc
    rcases splitOnNl_exists rest with ⟨fl, more, hs⟩
    by_cases hcn : c = '\n'
    · rw [splitOnNl_cons, if_pos hcn] at h
      rcases List.mem_cons.mp h with rfl | hm
      · cases hc
      · exact ih hm hc
    · rw [splitOnNl_cons_ne c rest hcn hs] at h
      rcases List.mem_cons.mp h with rfl | hm
      · rcases List.mem_cons.mp hc with h1 | h2
        · exact hcn h1.symm
        · exact ih (hs ▸ List.mem_cons_self fl more) h2
      · exact ih (hs ▸ List.mem_cons_of_mem fl hm) hc

theorem splitOnNl_chars :
    ∀ {l : List Char} {line : List Char} {c : Char},
      line ∈ splitOnNl l → c ∈ line → c ∈ l := by
  intro l
  induction l with
  | nil =>
    intro line c h hc
    simp [splitOnNl] at h
    subst h
    cases hc
  | cons a rest ih =>
    intro line c h hc
    rcases splitOnNl_exists rest with ⟨fl, more, hs⟩
    by_cases han : a = '\n'
    · rw [splitOnNl_cons, if_pos han] at h
      rcases List.mem_cons.mp h with rfl | hm
      · cases hc
      · exact List.mem_cons_of_mem a (ih hm hc)
    · rw [splitOnNl_cons_ne a rest han hs] at h
      rcases List.mem_cons.mp h with rfl | hm
      · rcases List.mem_cons.mp hc with rfl | h2
        · exact List.mem_cons_self _ _
        · exact List.mem_cons_of_mem a (ih (hs ▸ List.mem_cons_self fl more) h2)
      · exact List.mem_cons_of_mem a (ih (hs ▸ List.mem_cons_of_mem fl hm) hc)

theorem joinNl_split (l : List Char) : joinNl (splitOnNl l) = l := by
  induction l with
  | nil => rfl
  | cons c rest ih =>
    rcases splitOnNl_exists rest with ⟨fl, more, hs⟩
    rw [hs] at ih
    by_cases hcn : c = '\n'
    · subst hcn
      rw [splitOnNl_cons, if_pos rfl, hs]
      show ([] : List Char) ++ '\n' :: joinNl (fl :: more) = '\n' :: rest
      rw [List.nil_append, ih]
    · rw [splitOnNl_cons_ne c rest hcn hs]
      cases more with
      | nil =>
        show c :: fl = c :: rest
        have : fl = rest := ih
        rw [this]
      | cons m ms =>
        show (c :: fl) ++ '\n' :: joinNl (m :: ms) = c :: rest
        rw [List.cons_append]
        exact congrArg (c :: ·) ih

theorem splitOnNl_single {x : List Char} (h : '\n' ∉ x) : splitOnNl x = [x] := by
  induction x with
  | nil => rfl
  | cons c t ih =>
    have hc : ¬ c = '\n' := by
      intro e
      exact h (by rw [e]; exact List.mem_cons_self _ _)
    have ht : '\n' ∉ t := fun m => h (List.mem_cons_of_mem _ m)
    rw [splitOnNl_cons_ne c t hc (ih ht)]

theorem splitOnNl_append {x : List Char} (m : List Char) (h : '\n' ∉ x) :
    splitOnNl (x ++ '\n' :: m) = x :: splitOnNl m := by
  induction x with
  | nil =>
    rw [List.nil_append, splitOnNl_cons, if_pos rfl]
  | cons c t ih =>
    have hc : ¬ c = '\n' := by
      intro e
      exact h (by rw [e]; exact List.mem_cons_self _ _)
    have ht : '\n' ∉ t := fun hm => h (List.mem_cons_of_mem _ hm)
    rw [List.cons_append, splitOnNl_cons_ne c _ hc (ih ht)]

theorem splitOnNl_join (L : List (List Char)) (hnl : ∀ l ∈ L, '\n' ∉ l)
    (hne : L ≠ []) : splitOnNl (joinNl L) = L := by
  induction L with
  | nil => exact absurd rfl hne
  | cons x rest ih =>
    cases rest with
    | nil => exact splitOnNl_single (hnl x (List.mem_cons_self _ _))
    | cons y ys =>
      show splitOnNl (x ++ '\n' :: joinNl (y :: ys)) = x :: y :: ys
      rw [splitOnNl_append _ (hnl x (List.mem_cons_self _ _))]
      rw [ih (fun l hl => hnl l (List.mem_cons_of_mem x hl)) (List.cons_ne_nil y ys)]

theorem joinNl_chars :
    ∀ {L : List (List Char)} {c : Char},
      c ∈ joinNl L → (∃ l ∈ L, c ∈ l) ∨ c = '\n' := by
  intro L
  induction L with
  | nil => intro c h; cases h
  | cons x rest ih =>
    intro c h
    cases rest with
    | nil =>
      exact Or.inl ⟨x, List.mem_cons_self _ _, h⟩
    | cons y ys =>
      rcases List.mem_append.mp h with hx | hr
      · exact Or.inl ⟨x, List.mem_cons_self _ _, hx⟩
      · rcases List.mem_cons.mp hr with rfl | hj
        · exact Or.inr rfl
        · rcases ih hj with ⟨l, hl, hcl⟩ | rfl
          · exact Or.inl ⟨l, List.mem_cons_of_mem x hl, hcl⟩
          · exact Or.inr rfl

theorem joinNl_head (a : Char) (t : List Char) (rest : List (List Char)) :
    ∃ w, joinNl ((a :: t) :: rest) = a :: w := by
  cases rest with
  | nil => exact ⟨t, rfl⟩
  | cons y ys => exact ⟨t ++ '\n' :: joinNl (y :: ys), rfl⟩

theorem joinNl_append_single (M : List (List Char)) (z : List Char) (h : M ≠ []) :
    joinNl (M ++ [z]) = joinNl M ++ '\n' :: z := by
  induction M with
  | nil => exact absurd rfl h
  | cons x rest ih =>
    cases rest with
    | nil => rfl
    | cons y ys =>
      show x ++ '\n' :: joinNl ((y :: ys) ++ [z]) =
        (x ++ '\n' :: joinNl (y :: ys)) ++ '\n' :: z
      rw [ih (List.cons_ne_nil y ys)]
      simp [List.append_assoc]

theorem revLines_ne_nil {L : List (List Char)} (h : L ≠ []) : revLines L ≠ [] := by
  unfold revLines
  simp [List.reverse_eq_nil_iff]
  exact h

theorem joinNl_reverse (L : List (List Char)) :
    (joinNl L).reverse = joinNl (revLines L) := by
  induction L with
  | nil => rfl
  | cons x rest ih =>
    cases rest with
    | nil => rfl
    | cons y ys =>
      show (x ++ '\n' :: joinNl (y :: ys)).reverse = joinNl (revLines (x :: y :: ys))
      have hrl : revLines (x :: y :: ys) = revLines (y :: ys) ++ [x.reverse] := by
        unfold revLines
        rw [List.map_cons, List.reverse_cons]
      rw [hrl, joinNl_append_single _ _ (revLines_ne_nil (List.cons_ne_nil y ys))]
      rw [List.reverse_append, List.reverse_cons, ← ih]
      simp [List.append_assoc]

theorem collapseAux_cons (b : Bool) (line : List Char) (rest : List (List Char)) :
    collapseAux b (line :: rest) =
      if line.isEmpty then
        (if b then collapseAux true rest else [] :: collapseAux true rest)
      else line :: collapseAux false rest := rfl

theorem collapse_head_true :
    ∀ {L : List (List Char)} {x : List Char},
      (collapseAux true L).head? = some x → x ≠ [] := by
  intro L
  induction L with
  | nil => intro x h; cases h
  | cons line rest ih =>
    intro x h
    rw [collapseAux_cons] at h
    by_cases he : line.isEmpty
    · rw [if_pos he, if_pos rfl] at h
      exact ih h
    · rw [if_neg he] at h
      injection h with hx
      subst hx
      intro hnil
      subst hnil
      exact he rfl

theorem collapse_chain (L : List (List Char)) :
    ∀ b, noTwoAdjacentBlankLines (collapseAux b L) := by
  induction L with
  | nil => intro b; exact List.chain'_nil
  | cons line rest ih =>
    intro b
    rw [collapseAux_cons]
    by_cases he : line.isEmpty
    · rw [if_pos he]
      by_cases hb : b = true
      · rw [if_pos hb]; exact ih true
      · rw [if_neg hb]
        unfold noTwoAdjacentBlankLines
        rw [List.chain'_cons']
        constructor
        · intro y hy
          exact Or.inr (collapse_head_true (Option.mem_def.mp hy))
        · exact ih true
    · rw [if_neg he]
      unfold noTwoAdjacentBlankLines
      rw [List.chain'_cons']
      constructor
      · intro y _
        refine Or.inl ?_
        intro hnil
        subst hnil
        exact he rfl
      · exact ih false

theorem collapse_subset :
    ∀ {L : List (List Char)} {b : Bool} {x : List Char},
      x ∈ collapseAux b L → x ∈ L ∨ x = [] := by
  intro L
  induction L with
  | nil => intro b x h; cases h
  | cons line rest ih =>
    intro b x h
    rw [collapseAux_cons] at h
    by_cases he : line.isEmpty
    · rw [if_pos he] at h
      by_cases hb : b = true
      · rw [if_pos hb] at h
        rcases ih h with hm | rfl
        · exact Or.inl (List.mem_cons_of_mem line hm)
        · exact Or.inr rfl
      · rw [if_neg hb] at h
        rcases List.mem_cons.mp h with rfl | hm
        · exact Or.inr rfl
        · rcases ih hm with hm2 | rfl
          · exact Or.inl (List.mem_cons_of_mem line hm2)
          · exact Or.inr rfl
    · rw [if_neg he] at h
      rcases List.mem_cons.mp h with rfl | hm
      · exact Or.inl (List.mem_cons_self _ _)
      · rcases ih hm with hm2 | rfl
        · exact Or.inl (List.mem_cons_of_mem line hm2)
        · exact Or.inr rfl

theorem collapse_id :
    ∀ {L : List (List Char)} (b : Bool),
      noTwoAdjacentBlankLines L →
      (b = true → ∀ x, L.head? = some x → x ≠ []) →
      collapseAux b L = L := by
  intro L
  induction L with
  | nil => intro b _ _; rfl
  | cons line rest ih =>
    intro b hchain hhead
    rw [collapseAux_cons]
    by_cases he : line.isEmpty
    · have hline : line = [] := List.isEmpty_iff.mp he
      cases b with
      | true =>
        exact absurd hline (hhead rfl line rfl)
      | false =>
        rw [if_pos he, if_neg (by simp)]
        subst hline
        have hrest : collapseAux true rest = rest := by
          apply ih true (List.Chain'.tail hchain)
          intro _ x hx
          unfold noTwoAdjacentBlankLines at hchain
          rw [List.chain'_cons'] at hchain
          rcases hchain.1 x (Option.mem_def.mpr hx) with h1 | h2
          · exact absurd rfl h1
          · exact fun _ => by exact h2 (by assumption)
        rw [hrest]
    · rw [if_neg he]
      have hrest : collapseAux false rest = rest := by
        apply ih false (List.Chain'.tail hchain)
        intro hf
        cases hf
      rw [hrest]

theorem collapse_ne_nil {L : List (List Char)} (h : L ≠ []) :
    collapseAux false L ≠ [] := by
  cases L with
  | nil => exact absurd rfl h
  | cons line rest =>
    rw [collapseAux_cons]
    by_cases he : line.isEmpty
    · rw [if_pos he, if_neg (by simp)]
      simp
    · rw [if_neg he]
      simp

theorem dropLeadBlank_subset :
    ∀ {L : List (List Char)} {x : List Char}, x ∈ dropLeadBlank L → x ∈ L := by
  intro L x h
  cases L with
  | nil => exact h
  | cons y rest =>
    cases y with
    | nil => exact List.mem_cons_of_mem [] h
    | cons a t => exact h

theorem dropLeadBlank_chain {L : List (List Char)}
    (h : noTwoAdjacentBlankLines L) : noTwoAdjacentBlankLines (dropLeadBlank L) := by
  cases L with
  | nil => exact h
  | cons y rest =>
    cases y with
    | nil => exact List.Chain'.tail h
    | cons a t => exact h

theorem mem_revLines {x : List Char} {L : List (List Char)} :
    x ∈ revLines L ↔ ∃ y ∈ L, x = y.reverse := by
  unfold revLines
  rw [List.mem_reverse, List.mem_map]
  constructor
  · rintro ⟨a, ha, rfl⟩
    exact ⟨a, ha, rfl⟩
  · rintro ⟨a, ha, rfl⟩
    exact ⟨a, ha, rfl⟩

theorem revLines_chain {L : List (List Char)}
    (h : noTwoAdjacentBlankLines L) : noTwoAdjacentBlankLines (revLines L) := by
  unfold noTwoAdjacentBlankLines revLines at *
  rw [List.chain'_reverse, List.chain'_map]
  apply List.Chain'.imp _ h
  intro a b hab
  show b.reverse ≠ [] ∨ a.reverse ≠ []
  rcases hab with h1 | h2
  · exact Or.inr (by simpa using h1)
  · exact Or.inl (by simpa using h2)

theorem trimmedLines_subset {x : List Char} {L : List (List Char)}
    (h : x ∈ trimmedLines L) : x ∈ L := by
  unfold trimmedLines at h
  rcases mem_revLines.mp h with ⟨y, hy, rfl⟩
  rcases mem_revLines.mp (dropLeadBlank_subset hy) with ⟨z, hz, rfl⟩
  rw [List.reverse_reverse]
  exact dropLeadBlank_subset hz

theorem trimmedLines_chain {L : List (List Char)}
    (h : noTwoAdjacentBlankLines L) : noTwoAdjacentBlankLines (trimmedLines L) :=
  revLines_chain (dropLeadBlank_chain (revLines_chain (dropLeadBlank_chain h)))

theorem pyIsSpace_nl : pyIsSpace '\n' = true := by decide

theorem dropWhile_joinNl (L : List (List Char))
    (hhead : ∀ l ∈ L, ∀ a, l.head? = some a → pyIsSpace a = false)
    (hadj : noTwoAdjacentBlankLines L) :
    (joinNl L).dropWhile pyIsSpace = joinNl (dropLeadBlank L) := by
  cases L with
  | nil => rfl
  | cons x rest =>
    cases x with
    | nil =>
      cases rest with
      | nil => rfl
      | cons y ys =>
        have hy : y ≠ [] := by
          unfold noTwoAdjacentBlankLines at hadj
          rcases (List.chain'_cons.mp hadj).1 with h1 | h2
          · exact absurd rfl h1
          · exact h2
        cases y with
        | nil => exact absurd rfl hy
        | cons b u =>
          have hb : pyIsSpace b = false :=
            hhead (b :: u) (List.mem_cons_of_mem _ (List.mem_cons_self _ _)) b rfl
          show (([] : List Char) ++ '\n' :: joinNl ((b :: u) :: ys)).dropWhile pyIsSpace
            = joinNl ((b :: u) :: ys)
          rw [List.nil_append, dropWhile_cons_eq, if_pos pyIsSpace_nl]
          rcases joinNl_head b u ys with ⟨w, hw⟩
          rw [hw]
          rw [dropWhile_cons_eq, if_neg]
          rw [hb]
          intro hfalse
          cases hfalse
    | cons a t =>
      have ha : pyIsSpace a = false := hhead (a :: t) (List.mem_cons_self _ _) a rfl
      show (joinNl ((a :: t) :: rest)).dropWhile pyIsSpace = joinNl ((a :: t) :: rest)
      rcases joinNl_head a t rest with ⟨w, hw⟩
      rw [hw, dropWhile_cons_eq, if_neg]
      rw [ha]
      intro hfalse
      cases hfalse

theorem dropWhile_append_single (p : Char → Bool) (xs : List Char) (c : Char) :
    (xs ++ [c]).dropWhile p =
      if (xs.dropWhile p).isEmpty then (if p c then [] else [c])
      else xs.dropWhile p ++ [c] := by
  induction xs with
  | nil =>
    rw [List.nil_append, dropWhile_cons_eq]
    simp [List.dropWhile]
  | cons a xs ih =>
    rw [List.cons_append, dropWhile_cons_eq, dropWhile_cons_eq p a xs]
    by_cases hpa : p a
    · rw [if_pos hpa, if_pos hpa, ih]
    · rw [if_neg hpa, if_neg hpa]
      simp

theorem rstrip_eq_rev (l : List Char) :
    rstripChars l = (l.reverse.dropWhile pyIsSpace).reverse := by
  induction l with
  | nil => rfl
  | cons c rest ih =>
    rw [List.reverse_cons, dropWhile_append_single]
    cases hd : rest.reverse.dropWhile pyIsSpace with
    | nil =>
      rw [hd] at ih
      rw [rstrip_cons, ih]
      simp only [List.reverse_nil, List.isEmpty_nil, if_true]
      by_cases hs : pyIsSpace c <;> simp [hs]
    | cons b bs =>
      rw [hd] at ih
      rw [rstrip_cons, ih]
      simp [List.reverse_append]

theorem strip_joinNl (L : List (List Char))
    (hstrip : ∀ l ∈ L, stripChars l = l)
    (hadj : noTwoAdjacentBlankLines L) :
    stripChars (joinNl L) = joinNl (trimmedLines L) := by
  have hhead : ∀ l ∈ L, ∀ a, l.head? = some a → pyIsSpace a = false :=
    fun l hl => stripped_head_false (hstrip l hl)
  unfold stripChars trimmedLines
  rw [dropWhile_joinNl L hhead hadj]
  have hstrip1 : ∀ l ∈ dropLeadBlank L, stripChars l = l :=
    fun l hl => hstrip l (dropLeadBlank_subset hl)
  have hadj1 : noTwoAdjacentBlankLines (dropLeadBlank L) := dropLeadBlank_chain hadj
  have hhead2 : ∀ l ∈ revLines (dropLeadBlank L), ∀ a,
      l.head? = some a → pyIsSpace a = false := by
    intro l hl a hla
    rcases mem_revLines.mp hl with ⟨y, hy, rfl⟩
    rw [List.head?_reverse] at hla
    exact stripped_last_false (hstrip1 y hy) a hla
  have hadj2 : noTwoAdjacentBlankLines (revLines (dropLeadBlank L)) :=
    revLines_chain hadj1
  rw [rstrip_eq_rev, joinNl_reverse (dropLeadBlank L)]
  rw [dropWhile_joinNl (revLines (dropLeadBlank L)) hhead2 hadj2]
  rw [joinNl_reverse]

theorem cleanChars_eq_join (l : List Char) :
    cleanChars l = joinNl (trimmedLines (cleanLines l)) := by
  show stripChars (joinNl (cleanLines l)) = joinNl (trimmedLines (cleanLines l))
  apply strip_joinNl
  · intro m hm
    rcases collapse_subset hm with hmem | rfl
    · rcases List.mem_map.mp hmem with ⟨line, _, rfl⟩
      exact strip_idem line
    · rfl
  · exact collapse_chain _ false

theorem cleanLines_stripped {l : List Char} :
    ∀ m ∈ cleanLines l, stripChars m = m := by
  intro m hm
  rcases collapse_subset hm with hmem | rfl
  · rcases List.mem_map.mp hmem with ⟨line, _, rfl⟩
    exact strip_idem line
  · rfl

theorem cleanLines_chain (l : List Char) :
    noTwoAdjacentBlankLines (cleanLines l) :=
  collapse_chain _ false

theorem cleanLines_no_nl {l : List Char} :
    ∀ m ∈ cleanLines l, '\n' ∉ m := by
  intro m hm hnl
  rcases collapse_subset hm with hmem | rfl
  · rcases List.mem_map.mp hmem with ⟨line, hline, rfl⟩
    exact splitOnNl_no_nl hline (strip_mem hnl)
  · cases hnl

theorem cleanLines_chars {l : List Char} :
    ∀ m ∈ cleanLines l, ∀ c ∈ m, keepChar c = true := by
  intro m hm c hc
  rcases collapse_subset hm with hmem | rfl
  · rcases List.mem_map.mp hmem with ⟨line, hline, rfl⟩
    exact List.of_mem_filter (splitOnNl_chars hline (strip_mem hc))
  · cases hc

theorem map_stripChars_eq_self {T : List (List Char)}
    (h : ∀ m ∈ T, stripChars m = m) : T.map stripChars = T := by
  induction T with
  | nil => rfl
  | cons x rest ih =>
    rw [List.map_cons, h x (List.mem_cons_self _ _),
      ih (fun m hm => h m (List.mem_cons_of_mem x hm))]

theorem cleanChars_nil : cleanChars [] = [] := rfl

theorem keepChar_nl : keepChar '\n' = true := by decide

theorem cleanChars_idem (l : List Char) :
    cleanChars (cleanChars l) = cleanChars l := by
  have hTstrip : ∀ m ∈ trimmedLines (cleanLines l), stripChars m = m :=
    fun m hm => cleanLines_stripped m (trimmedLines_subset hm)
  have hTchain : noTwoAdjacentBlankLines (trimmedLines (cleanLines l)) :=
    trimmedLines_chain (cleanLines_chain l)
  have hTnl : ∀ m ∈ trimmedLines (cleanLines l), '\n' ∉ m :=
    fun m hm => cleanLines_no_nl m (trimmedLines_subset hm)
  have hTchars : ∀ m ∈ trimmedLines (cleanLines l), ∀ c ∈ m, keepChar c = true :=
    fun m hm => cleanLines_chars m (trimmedLines_subset hm)
  have hmain : cleanChars l = joinNl (trimmedLines (cleanLines l)) :=
    cleanChars_eq_join l
  cases hT : trimmedLines (cleanLines l) with
  | nil =>
    rw [hmain, hT]
    rfl
  | cons t0 ts =>
    rw [hmain, hT]
    rw [hT] at hTstrip hTchain hTnl hTchars
    have h1 : (joinNl (t0 :: ts)).filter keepChar = joinNl (t0 :: ts) := by
      apply List.filter_eq_self.mpr
      intro c hc
      rcases joinNl_chars hc with ⟨m, hm, hcm⟩ | rfl
      · exact hTchars m hm c hcm
      · exact keepChar_nl
    have h2 : splitOnNl (joinNl (t0 :: ts)) = t0 :: ts :=
      splitOnNl_join (t0 :: ts) hTnl (List.cons_ne_nil t0 ts)
    have h3 : (t0 :: ts).map stripChars = t0 :: ts :=
      map_stripChars_eq_self hTstrip
    have h4 : collapseAux false (t0 :: ts) = t0 :: ts :=
      collapse_id false hTchain (fun hf => by cases hf)
    have h5 : stripChars (joinNl (t0 :: ts)) = joinNl (t0 :: ts) := by
      have e : joinNl (t0 :: ts) = stripChars (joinNl (cleanLines l)) := by
        rw [← hT, ← hmain]
        rfl
      rw [e, strip_idem]
    show stripChars
      (joinNl (collapseAux false
        ((splitOnNl ((joinNl (t0 :: ts)).filter keepChar)).map stripChars)))
      = joinNl (t0 :: ts)
    rw [h1, h2, h3, h4, h5]

theorem string_data_mk (l : List Char) : (String.mk l).data = l := rfl

theorem clean_extracted_text_idem (s : String) :
    clean_extracted_text (clean_extracted_text s) = clean_extracted_text s := by
  unfold clean_extracted_text
  by_cases hs : s = ""
  · rw [if_pos hs]
    rw [if_pos rfl]
  · rw [if_neg hs]
    by_cases hz : (⟨cleanChars s.data⟩ : String) = ""
    · rw [if_pos hz]
      exact hz.symm
    · rw [if_neg hz]
      rw [string_data_mk, cleanChars_idem]

theorem clean_lines_no_adjacent (s : String) :
    noTwoAdjacentBlankLines (linesOf (clean_extracted_text s)) := by
  unfold linesOf clean_extracted_text
  by_cases hs : s = ""
  · rw [if_pos hs]
    exact List.chain'_singleton _
  · rw [if_neg hs]
    rw [string_data_mk, cleanChars_eq_join]
    cases hT : trimmedLines (cleanLines s.data) with
    | nil => exact List.chain'_singleton _
    | cons t0 ts =>
      have hTnl : ∀ m ∈ t0 :: ts, '\n' ∉ m := by
        rw [← hT]
        exact fun m hm => cleanLines_no_nl m (trimmedLines_subset hm)
      rw [splitOnNl_join _ hTnl (List.cons_ne_nil t0 ts)]
      have hch := trimmedLines_chain (cleanLines_chain s.data)
      rw [hT] at hch
      exact hch

/-- Claim C2: the text normalizer is idempotent — for every string `s`,
`clean_extracted_text (clean_extracted_text s) = clean_extracted_text s`. -/
theorem claim_C2_normalizer_idempotent (s : String) :
    clean_extracted_text (clean_extracted_text s) = clean_extracted_text s :=
  clean_extracted_text_idem s

/-- Claim C3: the normalizer collapses every run of two or more consecutive
empty lines to exactly one empty line — no blank-line run longer than one
survives in the output of `clean_extracted_text` — and in particular
`"Hello\n\n\n\nWorld"` normalizes to `"Hello\n\nWorld"`. -/
theorem claim_C3_blank_line_collapse :
    (∀ s : String, noTwoAdjacentBlankLines (linesOf (clean_extracted_text s))) ∧
    clean_extracted_text demoHello = demoHelloClean :=
  ⟨clean_lines_no_adjacent, by decide⟩

theorem pdfProcessPage_counts (st : String × Nat × Nat) (page : PdfPage) :
    (pdfProcessPage st page).2.1 = st.2.1 + 1 ∧
    (pdfProcessPage st page).2.2 =
      st.2.2 + (if ocrContributed page then 1 else 0) := by
  cases hb : isBlank page.nativeText with
  | false => simp [pdfProcessPage, ocrContributed, hb]
  | true =>
    cases ho : page.ocr with
    | ok t =>
      cases ht : isBlank t with
      | false => simp [pdfProcessPage, ocrContributed, hb, ho, ht]
      | true => simp [pdfProcessPage, ocrContributed, hb, ho, ht]
    | error e => simp [pdfProcessPage, ocrContributed, hb, ho]

theorem pdf_fold_counts (pages : List PdfPage) :
    ∀ st : String × Nat × Nat,
      (pages.foldl pdfProcessPage st).2.1 = st.2.1 + pages.length ∧
      (pages.foldl pdfProcessPage st).2.2 = st.2.2 + pages.countP ocrContributed := by
  induction pages with
  | nil => intro st; simp
  | cons p rest ih =>
    intro st
    rw [List.foldl_cons]
    rcases ih (pdfProcessPage st p) with ⟨h1, h2⟩
    rcases pdfProcessPage_counts st p with ⟨g1, g2⟩
    constructor
    · rw [h1, g1, List.length_cons]
      omega
    · rw [h2, g2, List.countP_cons]
      by_cases hc : ocrContributed p
      · simp [hc]
        omega
      · simp [hc]

theorem pdfProcessPage_skip (st : String × Nat × Nat) {page : PdfPage}
    (hb : isBlank page.nativeText = true)
    (ho : ∀ t, page.ocr = Except.ok t → isBlank t = true) :
    pdfProcessPage st page = (st.1, st.2.1 + 1, st.2.2) := by
  cases hpo : page.ocr with
  | ok t =>
    have htb := ho t hpo
    simp [pdfProcessPage, hb, hpo, htb]
  | error e => simp [pdfProcessPage, hb, hpo]

theorem pdfProcessPage_congr (p : PdfPage) {s₁ s₂ : String × Nat × Nat}
    (h1 : s₁.1 = s₂.1) (h2 : s₁.2.2 = s₂.2.2) :
    (pdfProcessPage s₁ p).1 = (pdfProcessPage s₂ p).1 ∧
    (pdfProcessPage s₁ p).2.2 = (pdfProcessPage s₂ p).2.2 := by
  cases hb : isBlank p.nativeText with
  | false => simp [pdfProcessPage, hb, h1, h2]
  | true =>
    cases ho : p.ocr with
    | ok t =>
      cases ht : isBlank t with
      | false => simp [pdfProcessPage, hb, ho, ht, h1, h2]
      | true => simp [pdfProcessPage, hb, ho, ht, h1, h2]
    | error e => simp [pdfProcessPage, hb, ho, h1, h2]

theorem pdf_fold_text_ocr (pages : List PdfPage) :
    ∀ s₁ s₂ : String × Nat × Nat, s₁.1 = s₂.1 → s₁.2.2 = s₂.2.2 →
      (pages.foldl pdfProcessPage s₁).1 = (pages.foldl pdfProcessPage s₂).1 ∧
      (pages.foldl pdfProcessPage s₁).2.2 = (pages.foldl pdfProcessPage s₂).2.2 := by
  induction pages with
  | nil => intro s₁ s₂ h1 h2; exact ⟨h1, h2⟩
  | cons p rest ih =>
    intro s₁ s₂ h1 h2
    rw [List.foldl_cons, List.foldl_cons]
    rcases pdfProcessPage_congr p h1 h2 with ⟨g1, g2⟩
    exact ih (pdfProcessPage s₁ p) (pdfProcessPage s₂ p) g1 g2

theorem extract_text_from_pdf_ok {env : Env} {path : String} {pages : List PdfPage}
    (h : env.fitzOpen path = Except.ok pages) :
    extract_text_from_pdf env path =
      { text := some (clean_extracted_text (pages.foldl pdfProcessPage ("", 0, 0)).1)
        pages_processed := some (pages.foldl pdfProcessPage ("", 0, 0)).2.1
        ocr_pages := some (pages.foldl pdfProcessPage ("", 0, 0)).2.2
        length := some (clean_extracted_text (pages.foldl pdfProcessPage ("", 0, 0)).1).length
        method := some methodPdf } := by
  unfold extract_text_from_pdf
  rw [h]

theorem extract_text_eq_pdf {env : Env} {path : String}
    (h : pyLower (splitext path).2 = pdfExt) :
    extract_text env path = extract_text_from_pdf env path := by
  unfold extract_text extract_text_body
  rw [if_pos h]

theorem extract_text_eq_doc {env : Env} {path : String}
    (h1 : ¬ pyLower (splitext path).2 = pdfExt)
    (h2 : pyLower (splitext path).2 = docExt ∨ pyLower (splitext path).2 = docxExt) :
    extract_text env path = extract_text_from_doc env path := by
  unfold extract_text extract_text_body
  rw [if_neg h1, if_pos h2]

theorem extract_text_eq_txt_ok {env : Env} {path : String} {text : String}
    (h1 : ¬ pyLower (splitext path).2 = pdfExt)
    (h2 : ¬ (pyLower (splitext path).2 = docExt ∨ pyLower (splitext path).2 = docxExt))
    (h3 : pyLower (splitext path).2 = txtExt)
    (h4 : env.readTextFile path = Except.ok text) :
    extract_text env path =
      { text := some (clean_extracted_text text)
        length := some (clean_extracted_text text).length
        method := some methodDirectRead } := by
  unfold extract_text extract_text_body
  rw [if_neg h1, if_neg h2, if_pos h3, h4]

theorem extract_text_eq_txt_err {env : Env} {path : String} {e : String}
    (h1 : ¬ pyLower (splitext path).2 = pdfExt)
    (h2 : ¬ (pyLower (splitext path).2 = docExt ∨ pyLower (splitext path).2 = docxExt))
    (h3 : pyLower (splitext path).2 = txtExt)
    (h4 : env.readTextFile path = Except.error e) :
    extract_text env path = { error := some (extractFailMsg e) } := by
  unfold extract_text extract_text_body
  rw [if_neg h1, if_neg h2, if_pos h3, h4]

theorem extract_text_eq_unsupported {env : Env} {path : String}
    (h1 : ¬ pyLower (splitext path).2 = pdfExt)
    (h2 : ¬ (pyLower (splitext path).2 = docExt ∨ pyLower (splitext path).2 = docxExt))
    (h3 : ¬ pyLower (splitext path).2 = txtExt) :
    extract_text env path =
      { error := some (unsupportedMsg (pyLower (splitext path).2)) } := by
  unfold extract_text extract_text_body
  rw [if_neg h1, if_neg h2, if_neg h3]

theorem textractFallback_shape (env : Env) (path : String) :
    (∃ e, textractFallback env path = { error := some e }) ∨
    (∃ raw, textractFallback env path =
      { text := some (clean_extracted_text raw)
        length := some (clean_extracted_text raw).length
        method := some methodTextract }) := by
  cases ht : env.textractProcess path with
  | ok raw =>
    right
    refine ⟨raw, ?_⟩
    unfold textractFallback
    rw [ht]
  | error e =>
    left
    refine ⟨textractFailMsg e, ?_⟩
    unfold textractFallback
    rw [ht]

theorem extract_text_from_doc_shape (env : Env) (path : String) :
    (∃ e, extract_text_from_doc env path = { error := some e }) ∨
    (∃ raw m pg, extract_text_from_doc env path =
      { text := some (clean_extracted_text raw)
        length := some (clean_extracted_text raw).length
        method := some m
        paragraphs := pg }) := by
  have hfb : (∃ e, textractFallback env path = { error := some e }) ∨
      (∃ raw m pg, textractFallback env path =
        { text := some (clean_extracted_text raw)
          length := some (clean_extracted_text raw).length
          method := some m
          paragraphs := pg }) := by
    rcases textractFallback_shape env path with ⟨e, he⟩ | ⟨raw, hr⟩
    · exact Or.inl ⟨e, he⟩
    · exact Or.inr ⟨raw, methodTextract, none, hr⟩
  by_cases hx : pyLower (splitext path).2 = docxExt
  · cases hd : env.docxParagraphs path with
    | ok paras =>
      by_cases hb :
          isBlank (String.intercalate nlStr (paras.filter (fun p => !(isBlank p)))) = true
      · have heq : extract_text_from_doc env path = textractFallback env path := by
          unfold extract_text_from_doc
          rw [if_pos hx, hd]
          simp [hb]
        rw [heq]
        exact hfb
      · right
        have hbf : isBlank (String.intercalate nlStr (paras.filter (fun p => !(isBlank p))))
            = false := by
          cases hv : isBlank (String.intercalate nlStr (paras.filter (fun p => !(isBlank p))))
          · rfl
          · exact absurd hv hb
        refine ⟨String.intercalate nlStr (paras.filter (fun p => !(isBlank p))),
          methodDocx, some (paras.filter (fun p => !(isBlank p))).length, ?_⟩
        unfold extract_text_from_doc
        rw [if_pos hx, hd]
        simp [hbf]
    | error e =>
      have heq : extract_text_from_doc env path = textractFallback env path := by
        unfold extract_text_from_doc
        rw [if_pos hx, hd]
      rw [heq]
      exact hfb
  · have heq : extract_text_from_doc env path = textractFallback env path := by
      unfold extract_text_from_doc
      rw [if_neg hx]
    rw [heq]
    exact hfb

theorem extract_text_shape (env : Env) (path : String) :
    (∃ e, extract_text env path = { error := some e }) ∨
    (∃ raw m pp op pg, extract_text env path =
      { text := some (clean_extracted_text raw)
        length := some (clean_extracted_text raw).length
        method := some m
        pages_processed := pp
        ocr_pages := op
        paragraphs := pg }) := by
  by_cases h1 : pyLower (splitext path).2 = pdfExt
  · rw [extract_text_eq_pdf h1]
    cases hf : env.fitzOpen path with
    | error e =>
      left
      refine ⟨pdfFailMsg e, ?_⟩
      unfold extract_text_from_pdf
      rw [hf]
    | ok pages =>
      right
      refine ⟨(pages.foldl pdfProcessPage ("", 0, 0)).1, methodPdf,
        some (pages.foldl pdfProcessPage ("", 0, 0)).2.1,
        some (pages.foldl pdfProcessPage ("", 0, 0)).2.2, none, ?_⟩
      rw [extract_text_from_pdf_ok hf]
  · by_cases h2 : pyLower (splitext path).2 = docExt ∨ pyLower (splitext path).2 = docxExt
    · rw [extract_text_eq_doc h1 h2]
      rcases extract_text_from_doc_shape env path with ⟨e, he⟩ | ⟨raw, m, pg, hr⟩
      · exact Or.inl ⟨e, he⟩
      · exact Or.inr ⟨raw, m, none, none, pg, hr⟩
    · by_cases h3 : pyLower (splitext path).2 = txtExt
      · cases hr : env.readTextFile path with
        | error e => exact Or.inl ⟨extractFailMsg e, extract_text_eq_txt_err h1 h2 h3 hr⟩
        | ok text =>
          exact Or.inr ⟨text, methodDirectRead, none, none, none,
            extract_text_eq_txt_ok h1 h2 h3 hr⟩
      · exact Or.inl ⟨unsupportedMsg (pyLower (splitext path).2),
          extract_text_eq_unsupported h1 h2 h3⟩

/-- Claim C1: for every input file path (and every behaviour of the external
libraries), the result of `extract_text` is a tagged union — either the
success fields `text` and `method` are present and `error` is absent, or
`error` is present and the success fields are absent; exactly one of the two,
never both and never neither. -/
theorem claim_C1_tagged_union (env : Env) (path : String) :
    ((extract_text env path).error.isSome = true ∧
      (extract_text env path).text = none ∧
      (extract_text env path).method = none) ∨
    ((extract_text env path).error = none ∧
      (extract_text env path).text.isSome = true ∧
      (extract_text env path).method.isSome = true) := by
  rcases extract_text_shape env path with ⟨e, he⟩ | ⟨raw, m, pp, op, pg, hr⟩
  · left
    rw [he]
    exact ⟨rfl, rfl, rfl⟩
  · right
    rw [hr]
    exact ⟨rfl, rfl, rfl⟩

/-- Claim C4: for every successful extraction result, the `length` field
equals the character count of the `text` field actually returned, and that
text is the output of the normalizer `clean_extracted_text` (so `length`
measures the normalized text, not the raw extracted text). -/
theorem claim_C4_length_of_normalized (env : Env) (path : String) (t : String)
    (h : (extract_text env path).text = some t) :
    (extract_text env path).length = some t.length ∧
    ∃ raw, t = clean_extracted_text raw := by
  rcases extract_text_shape env path with ⟨e, he⟩ | ⟨raw, m, pp, op, pg, hr⟩
  · rw [he] at h
    cases h
  · rw [hr] at h
    injection h with ht
    subst ht
    rw [hr]
    exact ⟨rfl, raw, rfl⟩

/-- Witness for C4 at a concrete input: a text file containing
`"A\n\n\nB\n"` yields text `"A\n\nB"` whose recorded length is its
character count. -/
theorem claim_C4_witness :
    (extract_text envTxt demoTxtPath).text = some demoClean ∧
    (extract_text envTxt demoTxtPath).length = some demoClean.length ∧
    ∃ raw, demoClean = clean_extracted_text raw := by
  have h : (extract_text envTxt demoTxtPath).text = some demoClean := by decide
  exact ⟨h, (claim_C4_length_of_normalized envTxt demoTxtPath demoClean h).1,
    (claim_C4_length_of_normalized envTxt demoTxtPath demoClean h).2⟩

/-- Counterexample to C5 as stated: the `method` label does not distinguish a
PDF where every page had native text from one where a page required OCR — the
source emits the constant label `"PyMuPDF + OCR"` in both cases, even though
the two documents differ in OCR involvement (`ocr_pages` 0 versus 1).  So an
all-native PDF does not get a label indicating no OCR involvement. -/
theorem claim_C5_counterexample :
    (extract_text_from_pdf envAllNative demoPdfPath).method =
      (extract_text_from_pdf envScanned demoPdfPath).method ∧
    (extract_text_from_pdf envAllNative demoPdfPath).method = some methodPdf ∧
    (extract_text_from_pdf envAllNative demoPdfPath).ocr_pages = some 0 ∧
    (extract_text_from_pdf envScanned demoPdfPath).ocr_pages = some 1 := by
  exact ⟨rfl, rfl, by decide, by decide⟩

/-- Claim C5 (amended): for every successful PDF extraction the `method`
label is the fixed string `"PyMuPDF + OCR"` regardless of whether OCR
contributed; OCR involvement is reflected only by the `ocr_pages` counter —
when every page yields native text `ocr_pages = 0`, and when some page's OCR
contributed `ocr_pages > 0`, under that same label. -/
theorem claim_C5_pdf_method_constant (env : Env) (path : String)
    (pages : List PdfPage) (h : env.fitzOpen path = Except.ok pages) :
    (extract_text_from_pdf env path).method = some methodPdf ∧
    ((∀ p ∈ pages, isBlank p.nativeText = false) →
      (extract_text_from_pdf env path).ocr_pages = some 0) ∧
    ((∃ p ∈ pages, ocrContributed p = true) →
      (extract_text_from_pdf env path).ocr_pages =
        some (pages.countP ocrContributed) ∧
      0 < pages.countP ocrContributed) := by
  rcases pdf_fold_counts pages ("", 0, 0) with ⟨_, h2⟩
  have eo : (extract_text_from_pdf env path).ocr_pages =
      some (pages.countP ocrContributed) := by
    rw [extract_text_from_pdf_ok h]
    have e2 : (pages.foldl pdfProcessPage ("", 0, 0)).2.2 =
        pages.countP ocrContributed := by
      rw [h2]
      exact Nat.zero_add _
    rw [e2]
  refine ⟨?_, ?_, ?_⟩
  · rw [extract_text_from_pdf_ok h]
  · intro hnative
    have hz : pages.countP ocrContributed = 0 := by
      rw [List.countP_eq_zero]
      intro p hp
      unfold ocrContributed
      rw [hnative p hp]
      simp
    rw [eo, hz]
  · intro hsome
    exact ⟨eo, List.countP_pos_iff.mpr hsome⟩

/-- Witness for the amended C5 at concrete inputs: an all-native one-page PDF
and a one-page PDF whose OCR contributed carry the same fixed label, with
`ocr_pages` 0 and 1 respectively. -/
theorem claim_C5_witness :
    (extract_text_from_pdf envAllNative demoPdfPath).method = some methodPdf ∧
    (extract_text_from_pdf envAllNative demoPdfPath).ocr_pages = some 0 ∧
    (extract_text_from_pdf envScanned demoPdfPath).method = some methodPdf ∧
    (extract_text_from_pdf envScanned demoPdfPath).ocr_pages = some 1 ∧
    0 < 1 := by
  have hA := claim_C5_pdf_method_constant envAllNative demoPdfPath [pageNative] rfl
  have hS := claim_C5_pdf_method_constant envScanned demoPdfPath [pageScan] rfl
  have hc : ∃ p ∈ [pageScan], ocrContributed p = true :=
    ⟨pageScan, List.mem_singleton.mpr rfl, by decide⟩
  refine ⟨hA.1, hA.2.1 ?_, hS.1, (hS.2.2 hc).1, Nat.zero_lt_one⟩
  intro p hp
  rcases List.mem_singleton.mp hp with rfl
  decide

/-- Claim C6: for every successful PDF extraction, `pages_processed` counts
every page visited, `ocr_pages` counts exactly the pages whose native text
was blank and whose OCR returned non-empty text, and
`ocr_pages ≤ pages_processed` (both counters are naturals, hence
non-negative). -/
theorem claim_C6_pdf_counters (env : Env) (path : String) (pages : List PdfPage)
    (h : env.fitzOpen path = Except.ok pages) :
    (extract_text_from_pdf env path).pages_processed = some pages.length ∧
    (extract_text_from_pdf env path).ocr_pages =
      some (pages.countP ocrContributed) ∧
    pages.countP ocrContributed ≤ pages.length := by
  rw [extract_text_from_pdf_ok h]
  rcases pdf_fold_counts pages ("", 0, 0) with ⟨h1, h2⟩
  refine ⟨?_, ?_, List.countP_le_length _⟩
  · have e1 : (pages.foldl pdfProcessPage ("", 0, 0)).2.1 = pages.length := by
      rw [h1]
      exact Nat.zero_add _
    rw [e1]
  · have e2 : (pages.foldl pdfProcessPage ("", 0, 0)).2.2 =
        pages.countP ocrContributed := by
      rw [h2]
      exact Nat.zero_add _
    rw [e2]

/-- Witness for C6 at a concrete input: a one-page scanned PDF. -/
theorem claim_C6_witness :
    envScanned.fitzOpen demoPdfPath = Except.ok [pageScan] ∧
    (extract_text_from_pdf envScanned demoPdfPath).pages_processed = some 1 ∧
    (extract_text_from_pdf envScanned demoPdfPath).ocr_pages = some 1 := by
  refine ⟨rfl, ?_, ?_⟩
  · exact (claim_C6_pdf_counters envScanned demoPdfPath [pageScan] rfl).1
  · exact (claim_C6_pdf_counters envScanned demoPdfPath [pageScan] rfl).2.1

/-- Claim C7: a page-level OCR failure (OCR raising, or returning blank text,
on a page with blank native text) never escalates to a document-level error:
the whole extraction still succeeds, the failing page is still counted in
`pages_processed`, and it contributes neither text nor an `ocr_pages`
increment — the aggregate text and OCR count are the same as if the page were
absent. -/
theorem claim_C7_ocr_failure_recoverable (env : Env) (path : String)
    (before after : List PdfPage) (page : PdfPage)
    (h : env.fitzOpen path = Except.ok (before ++ page :: after))
    (hb : isBlank page.nativeText = true)
    (ho : ∀ t, page.ocr = Except.ok t → isBlank t = true) :
    (extract_text_from_pdf env path).error = none ∧
    (extract_text_from_pdf env path).pages_processed =
      some ((before ++ after).length + 1) ∧
    ((before ++ page :: after).foldl pdfProcessPage ("", 0, 0)).1 =
      ((before ++ after).foldl pdfProcessPage ("", 0, 0)).1 ∧
    ((before ++ page :: after).foldl pdfProcessPage ("", 0, 0)).2.2 =
      ((before ++ after).foldl pdfProcessPage ("", 0, 0)).2.2 := by
  have hskip := pdfProcessPage_skip (before.foldl pdfProcessPage ("", 0, 0)) hb ho
  have hsplit : (before ++ page :: after).foldl pdfProcessPage ("", 0, 0) =
      after.foldl pdfProcessPage
        (pdfProcessPage (before.foldl pdfProcessPage ("", 0, 0)) page) := by
    rw [show before ++ page :: after = (before ++ [page]) ++ after from by simp,
      List.foldl_append, List.foldl_append]
    rfl
  have hcmp := pdf_fold_text_ocr after
    (pdfProcessPage (before.foldl pdfProcessPage ("", 0, 0)) page)
    (before.foldl pdfProcessPage ("", 0, 0))
    (by rw [hskip]) (by rw [hskip])
  have hfold1 : ((before ++ page :: after).foldl pdfProcessPage ("", 0, 0)).1 =
      ((before ++ after).foldl pdfProcessPage ("", 0, 0)).1 := by
    rw [hsplit, List.foldl_append]
    exact hcmp.1
  have hfold2 : ((before ++ page :: after).foldl pdfProcessPage ("", 0, 0)).2.2 =
      ((before ++ after).foldl pdfProcessPage ("", 0, 0)).2.2 := by
    rw [hsplit, List.foldl_append]
    exact hcmp.2
  rw [extract_text_from_pdf_ok h]
  refine ⟨rfl, ?_, hfold1, hfold2⟩
  rcases pdf_fold_counts (before ++ page :: after) ("", 0, 0) with ⟨h1, _⟩
  rw [h1]
  simp [List.length_append]
  omega

/-- Witness for C7 at a concrete input: a two-page PDF whose second page is
image-only and whose OCR raises; extraction still succeeds and counts both
pages. -/
theorem claim_C7_witness :
    isBlank pageDead.nativeText = true ∧
    (extract_text_from_pdf envOcrFail demoPdfPath).error = none ∧
    (extract_text_from_pdf envOcrFail demoPdfPath).pages_processed = some 2 := by
  have h := claim_C7_ocr_failure_recoverable envOcrFail demoPdfPath
    [pageNative] [] pageDead rfl (by decide) (fun t ht => Except.noConfusion ht)
  exact ⟨by decide, h.1, h.2.1⟩

/-- Counterexample to C8 as stated: on a structured document with three
non-empty paragraphs and one whitespace-only paragraph the source does set
`paragraphs = 3`, but the `method` label it emits is `"python-docx"`, not the
spec's literal `"structured-docx"`. -/
theorem claim_C8_counterexample :
    (extract_text_from_doc envDocx demoDocxPath).paragraphs = some 3 ∧
    (extract_text_from_doc envDocx demoDocxPath).method = some methodDocx ∧
    ¬ (extract_text_from_doc envDocx demoDocxPath).method =
        some specStructuredDocxLabel := by
  refine ⟨by decide, by decide, by decide⟩

/-- Claim C8 (amended): for a `.docx` document whose structured extraction
yields non-blank text, the result has `method` equal to the structured
strategy's label — the string `"python-docx"` in the source — and
`paragraphs` equal to the count of paragraphs with non-whitespace content
(whitespace-only paragraphs excluded). -/
theorem claim_C8_structured_docx (env : Env) (path : String) (paras : List String)
    (hext : pyLower (splitext path).2 = docxExt)
    (hd : env.docxParagraphs path = Except.ok paras)
    (hnb : isBlank (String.intercalate nlStr (paras.filter (fun p => !(isBlank p))))
      = false) :
    (extract_text_from_doc env path).method = some methodDocx ∧
    (extract_text_from_doc env path).paragraphs =
      some (paras.filter (fun p => !(isBlank p))).length := by
  unfold extract_text_from_doc
  rw [if_pos hext, hd]
  simp [hnb]

/-- Witness for the amended C8 at a concrete input: three non-empty
paragraphs plus one whitespace-only paragraph give `paragraphs = 3` and the
structured label. -/
theorem claim_C8_witness :
    pyLower (splitext demoDocxPath).2 = docxExt ∧
    envDocx.docxParagraphs demoDocxPath = Except.ok demoParas ∧
    isBlank (String.intercalate nlStr (demoParas.filter (fun p => !(isBlank p))))
      = false ∧
    (extract_text_from_doc envDocx demoDocxPath).method = some methodDocx ∧
    (extract_text_from_doc envDocx demoDocxPath).paragraphs = some 3 := by
  refine ⟨by decide, rfl, by decide, ?_⟩
  have h := claim_C8_structured_docx envDocx demoDocxPath demoParas
    (by decide) rfl (by decide)
  exact ⟨h.1, h.2⟩

/-- Claim C9: for every file path whose extension (compared
case-insensitively) is not pdf, doc, docx, or txt, extraction yields an error
record whose message names the rejected extension, and the result is
identical under every environment — the file's contents are never
inspected. -/
theorem claim_C9_unsupported_extension (env1 env2 : Env) (path : String)
    (h1 : ¬ pyLower (splitext path).2 = pdfExt)
    (h2 : ¬ pyLower (splitext path).2 = docExt)
    (h3 : ¬ pyLower (splitext path).2 = docxExt)
    (h4 : ¬ pyLower (splitext path).2 = txtExt) :
    extract_text env1 path =
      { error := some (unsupportedMsg (pyLower (splitext path).2)) } ∧
    extract_text env1 path = extract_text env2 path := by
  have hd : ¬ (pyLower (splitext path).2 = docExt ∨ pyLower (splitext path).2 = docxExt) :=
    fun hc => hc.elim h2 h3
  have e1 := @extract_text_eq_unsupported env1 path h1 hd h4
  have e2 := @extract_text_eq_unsupported env2 path h1 hd h4
  exact ⟨e1, e1.trans e2.symm⟩

/-- Witness for C9 at a concrete input: a `.xyz` file is rejected with a
message naming `.xyz`, identically under two different environments. -/
theorem claim_C9_witness :
    (¬ pyLower (splitext demoXyzPath).2 = pdfExt) ∧
    (¬ pyLower (splitext demoXyzPath).2 = txtExt) ∧
    extract_text envTxt demoXyzPath = { error := some (unsupportedMsg demoXyzExt) } ∧
    extract_text envTxt demoXyzPath = extract_text envScanned demoXyzPath := by
  have h := claim_C9_unsupported_extension envTxt envScanned demoXyzPath
    (by decide) (by decide) (by decide) (by decide)
  exact ⟨by decide, by decide, h.1, h.2⟩

/-- Claim C10: `extract_text` is total at the public interface — in exception
semantics the call never ends in an uncaught exception for any environment
behaviour, and whenever the dispatch body raises internally the caller still
receives a record whose `error` field wraps the exception text. -/
theorem claim_C10_total_interface (env : Env) (path : String) :
    (extract_text_exc env path).isOk = true ∧
    extract_text_exc env path = Except.ok (extract_text env path) ∧
    ∀ e, extract_text_body env path = Except.error e →
      extract_text env path = { error := some (extractFailMsg e) } := by
  refine ⟨?_, ?_, ?_⟩
  · unfold extract_text_exc
    cases extract_text_body env path <;> rfl
  · unfold extract_text_exc extract_text
    cases extract_text_body env path <;> rfl
  · intro e he
    unfold extract_text
    rw [he]

/-- Witness for C10 at a concrete input: a text file whose read raises is
converted into an error record, and in exception semantics the call still
returns normally. -/
theorem claim_C10_witness :
    extract_text_body envDemoBase demoTxtPath = Except.error errBoom ∧
    extract_text envDemoBase demoTxtPath = { error := some (extractFailMsg errBoom) } ∧
    (extract_text_exc envDemoBase demoTxtPath).isOk = true := by
  have h := claim_C10_total_interface envDemoBase demoTxtPath
  exact ⟨rfl, h.2.2 errBoom rfl, h.1⟩
